import Mathlib

/-!
Shallow embedding of the traveler-app client (src/src/App.jsx) and proofs of
the specification's claims about it.

JS strings are modelled as `List Char`; the comparisons the app performs on
them (`localeCompare` on `HH:MM` time strings and `YYYY-MM-DD` date strings,
`>=`/`<=` on date strings) are code-unit lexicographic order, which is the
lexicographic order on the character lists.  JS `Array.prototype.sort` is a
stable sort with respect to its comparator and is modelled by
`List.mergeSort`.  JS numbers are modelled as exact rationals; `NaN` results
of `parseFloat` are modelled by `Option ℚ` being `none`.
-/

namespace TravelerApp

/-- Model of a JS string: its sequence of characters. -/
abbrev Str := List Char

/-- Lexicographic (code-unit) comparison of JS strings, as a Bool:
the order `localeCompare` and `<=`/`>=` induce on the app's ASCII date and
time strings. -/
def strLe (s t : Str) : Bool := decide (s ≤ t)

/-- Whitespace as stripped by JS `String.prototype.trim`: the full ECMA-262
WhiteSpace set (TAB, VT, FF, SPACE, NBSP, ZWNBSP and the Unicode Zs
category: U+1680, U+2000-U+200A, U+202F, U+205F, U+3000) together with the
LineTerminator set (LF, CR, LS U+2028, PS U+2029). -/
def isJsSpace (c : Char) : Bool :=
  c = '\t' || c = '\n' || c = '\x0B' || c = '\x0C' || c = '\r' || c = ' ' ||
  c = '\u00A0' || c = '\u1680' || ('\u2000' ≤ c && c ≤ '\u200A') ||
  c = '\u2028' || c = '\u2029' || c = '\u202F' || c = '\u205F' ||
  c = '\u3000' || c = '\uFEFF'

/-- Model of JS `String.prototype.trim`: strip leading and trailing
whitespace. -/
def jsTrim (s : Str) : Str :=
  ((s.dropWhile isJsSpace).reverse.dropWhile isJsSpace).reverse

/-- The wildcard payer filter value `'All'` (src/src/App.jsx:805, 970). -/
def allPayers : Str := ['A', 'l', 'l']

/-- The five keys of `EXCHANGE_RATES` (src/src/App.jsx:28-34). -/
inductive Currency
  | TWD | USD | JPY | EUR | CNY
deriving DecidableEq, Repr

/-- Model of `EXCHANGE_RATES` (src/src/App.jsx:28-34), as exact rationals. -/
def EXCHANGE_RATES : Currency → ℚ
  | .TWD => 1
  | .USD => 32
  | .JPY => 22 / 100
  | .EUR => 35
  | .CNY => 45 / 10

/-- Model of JS `Math.round`: round to the nearest integer, halves towards
positive infinity. -/
def jsRound (x : ℚ) : ℤ := ⌊x + 1 / 2⌋

/-- Model of `twdAmount` (src/src/App.jsx:506-510): `0` when `parseFloat`
returned `NaN` (the parsed amount is `none`), otherwise
`Math.round(val * EXCHANGE_RATES[currency] * 100) / 100`. -/
def twdAmount (amount : Option ℚ) (currency : Currency) : ℚ :=
  match amount with
  | none => 0
  | some val => (jsRound (val * EXCHANGE_RATES currency * 100) : ℚ) / 100

/-- Modelled from the spec: the quantity "round(a × rate[c], 2)" that §8 of
the spec requires `toHomeCurrency` to compute (rounding to two decimal
places, halves up as in JS `Math.round`). -/
def specRound2 (x : ℚ) : ℚ := (⌊x * 100 + 1 / 2⌋ : ℚ) / 100

/-- An expense record as stored in the `expenses` state
(src/src/App.jsx:63-68, 515-521). -/
structure ExpenseRecord where
  id : ℤ
  date : Str
  category : Str
  description : Str
  amount : ℚ
  currency : Str
  inputAmount : ℚ
  inputCurrency : Str
  payer : Str
deriving DecidableEq, Repr

/-- Model of `filteredExpenses` (src/src/App.jsx:968-974): keep the records
matching the payer filter (exact match unless the filter is `'All'`) and the
date range (each bound ignored when the bound is the empty string). -/
def filteredExpenses (expenses : List ExpenseRecord)
    (filterPayer filterStart filterEnd : Str) : List ExpenseRecord :=
  expenses.filter fun e =>
    (filterPayer = allPayers || e.payer = filterPayer) &&
      ((filterStart = [] || strLe filterStart e.date) &&
       (filterEnd = [] || strLe e.date filterEnd))

/-- Model of `totalExpense` (src/src/App.jsx:976):
`filteredExpenses.reduce((sum, e) => sum + e.amount, 0)`. -/
def totalExpense (expenses : List ExpenseRecord)
    (filterPayer filterStart filterEnd : Str) : ℚ :=
  (filteredExpenses expenses filterPayer filterStart filterEnd).foldl
    (fun sum e => sum + e.amount) 0

/-- Model of `handleExpenseSave` (src/src/App.jsx:879-882): replacement by id
on edit; on add, append and re-sort the whole list by
`(a, b) => new Date(b.date) - new Date(a.date)`, i.e. descending by date
(on the app's `YYYY-MM-DD` date strings the `Date` order is the
lexicographic string order); JS sort is stable, hence `mergeSort`. -/
def handleExpenseSave (prev : List ExpenseRecord) (expense : ExpenseRecord)
    (isEdit : Bool) : List ExpenseRecord :=
  if isEdit then prev.map fun e => if e.id = expense.id then expense else e
  else (prev ++ [expense]).mergeSort fun a b => strLe b.date a.date

/-- The `editingPayer` state of `PayerManagementModal`
(src/src/App.jsx:407): the payer being renamed and the new name typed so
far. -/
structure EditingPayer where
  originalName : Str
  newName : Str
deriving DecidableEq, Repr

/-- Model of `handleSaveEdit` (src/src/App.jsx:420-436), restricted to its
effect on the payer registry: `onSavePayers` is called exactly when the guard
clauses pass and the trimmed new name is nonempty and not already in the
registry; in every other branch the registry is left unchanged. -/
def handleSaveEdit (payers : List Str) (editingPayer : Option EditingPayer) :
    List Str :=
  match editingPayer with
  | none => payers
  | some ep =>
    if ep.newName = [] ∨ ep.newName = ep.originalName then payers
    else
      let newPayerName := jsTrim ep.newName
      if newPayerName ≠ [] ∧ newPayerName ∉ payers then
        payers.map fun p => if p = ep.originalName then newPayerName else p
      else payers

/-- The pieces of application state involved in payer deletion: the `App`
state `expenses`, `payers`, `filterPayer` (src/src/App.jsx:794-805) and the
`ExpenseForm` state `payer` (src/src/App.jsx:503). -/
structure AppState where
  expenses : List ExpenseRecord
  payers : List Str
  filterPayer : Str
  formPayer : Str
deriving Repr

/-- Model of `savePayers` (src/src/App.jsx:869-876): store the new registry
and reset the payer filter to `'All'` when it no longer names a registered
payer. -/
def savePayers (s : AppState) (newList : List Str) : AppState :=
  { s with
    payers := newList
    filterPayer :=
      if s.filterPayer ≠ allPayers ∧ s.filterPayer ∉ newList then allPayers
      else s.filterPayer }

/-- Model of `handleDeletePayer` (src/src/App.jsx:524-532), confirmed path:
filter the target out of the registry, persist via `savePayers`, and reset
the form's selected payer to the first remaining entry (or the empty string)
when it was the deleted one. -/
def handleDeletePayer (s : AppState) (target : Str) : AppState :=
  let newList := s.payers.filter fun p => p ≠ target
  let s' := savePayers s newList
  if s.formPayer = target then { s' with formPayer := newList.headD [] }
  else s'

/-- An activity as stored in an itinerary day bucket
(src/src/App.jsx:70-81; the object built at src/src/App.jsx:690-700 minus the
transient `originalDate` field).  Coordinates may be absent
(`null`/`undefined`), modelled by `none`. -/
structure Activity where
  id : Str
  date : Str
  time : Str
  icon : Str
  description : Str
  location : Str
  lat : Option ℚ
  lng : Option ℚ
deriving DecidableEq, Repr

/-- The argument `handleActivitySave` receives from `ActivityForm`'s
`handleSubmit` (src/src/App.jsx:686-701): a stored activity plus the
transient `originalDate`. -/
structure ActivityInput where
  id : Str
  date : Str
  time : Str
  icon : Str
  description : Str
  location : Str
  lat : Option ℚ
  lng : Option ℚ
  originalDate : Option Str
deriving DecidableEq, Repr

/-- Model of `const { originalDate, ...activityWithoutOriginalDate } =
activity` (src/src/App.jsx:907, 927). -/
def stripOriginalDate (a : ActivityInput) : Activity :=
  { id := a.id, date := a.date, time := a.time, icon := a.icon,
    description := a.description, location := a.location,
    lat := a.lat, lng := a.lng }

/-- An itinerary day bucket (src/src/App.jsx:70-81). -/
structure ItineraryDay where
  date : Str
  activities : List Activity
deriving DecidableEq, Repr

/-- The comparator `(a, b) => a.time.localeCompare(b.time)`
(src/src/App.jsx:920, 939) as the Bool relation `mergeSort` sorts by. -/
def timeLE (a b : Activity) : Bool := strLe a.time b.time

/-- The comparator `(a, b) => a.date.localeCompare(b.date)`
(src/src/App.jsx:910, 932) as the Bool relation `mergeSort` sorts by. -/
def dateLE (a b : ItineraryDay) : Bool := strLe a.date b.date

/-- Model of the JS pattern `const i = l.findIndex(p); if (i === -1) ... else
mutate l[i]`: when no element matches, the result is `ifAbsent`; otherwise
the first matching element is replaced by `f` applied to it.  The inner
`none` case is unreachable because `findIdx?` returns in-range indices. -/
def jsFindUpdate {α : Type} (p : α → Bool) (f : α → α)
    (ifAbsent : List α) (l : List α) : List α :=
  match l.findIdx? p with
  | none => ifAbsent
  | some i =>
    match l.get? i with
    | none => l
    | some x => l.set i (f x)

/-- The guard `isEdit && activity.originalDate && activity.originalDate !==
activity.date` (src/src/App.jsx:896); an absent `originalDate` and the empty
string are both falsy in JS. -/
def isDateMove (activity : ActivityInput) (isEdit : Bool) : Bool :=
  isEdit &&
    (match activity.originalDate with
     | some od => !(od = []) && !(od = activity.date)
     | none => false)

/-- Model of `prev.map(day => day.date === d ? remove-the-activity : day)
.filter(day => day.activities.length > 0)`: the removal-and-prune step
shared by the date-move branch of `handleActivitySave`
(src/src/App.jsx:897-903) and by `handleActivityDelete`
(src/src/App.jsx:957-962). -/
def removeStage (prev : List ItineraryDay) (i d : Str) : List ItineraryDay :=
  (prev.map fun day =>
    if day.date = d then
      { day with activities := day.activities.filter fun a => a.id ≠ i }
    else day).filter fun day => 0 < day.activities.length

/-- The destination-day update of the date-move branch
(src/src/App.jsx:912-920): replace by id, append when the id is not present,
then sort the bucket by time. -/
def moveUpsert (activity : ActivityInput) (day : ItineraryDay) : ItineraryDay :=
  let act := stripOriginalDate activity
  let mapped := day.activities.map fun a => if a.id = activity.id then act else a
  let withAct :=
    if mapped.any fun a => a.id = activity.id then mapped else mapped ++ [act]
  { day with activities := withAct.mergeSort timeLE }

/-- The existing-day update of the plain add/edit branch
(src/src/App.jsx:933-942): replace by id (edit) or append (add), then sort
the bucket by time. -/
def simpleUpsert (activity : ActivityInput) (isEdit : Bool)
    (day : ItineraryDay) : ItineraryDay :=
  let act := stripOriginalDate activity
  let updated :=
    if isEdit then day.activities.map fun a => if a.id = activity.id then act else a
    else day.activities ++ [act]
  { day with activities := updated.mergeSort timeLE }

/-- Creation of a fresh day bucket in date order
(src/src/App.jsx:909-910 and 929-932): append the new single-activity day
and re-sort the day list by date. -/
def insertNewDay (l : List ItineraryDay) (activity : ActivityInput) :
    List ItineraryDay :=
  (l ++ [({ date := activity.date,
            activities := [stripOriginalDate activity] } : ItineraryDay)]).mergeSort dateLE

/-- Model of the state-update function `handleActivitySave` passes to
`setItinerary` (src/src/App.jsx:893-945).  Date-move branch: remove the
activity from the origin day, drop days left empty, then upsert into the
destination day (creating it in date order if absent) and re-sort that day's
activities by time.  Otherwise: locate or create the day bucket for
`activity.date`, replace by id (edit) or append (add), and re-sort the
bucket by time. -/
def handleActivitySave (prev : List ItineraryDay) (activity : ActivityInput)
    (isEdit : Bool) : List ItineraryDay :=
  if isDateMove activity isEdit then
    let od := activity.originalDate.getD []
    let newState := removeStage prev activity.id od
    jsFindUpdate (fun day => day.date = activity.date) (moveUpsert activity)
      (insertNewDay newState activity) newState
  else
    jsFindUpdate (fun day => day.date = activity.date)
      (simpleUpsert activity isEdit) (insertNewDay prev activity) prev

/-- Model of the state-update function `handleActivityDelete` passes to
`setItinerary` on the confirmed path (src/src/App.jsx:955-965): remove the
activity by id from the named day's bucket and drop days left empty —
exactly the shared `removeStage`. -/
def handleActivityDelete (prev : List ItineraryDay) (id date : Str) :
    List ItineraryDay :=
  removeStage prev id date

/-- JS truthiness of a possibly-missing numeric field: `null`, `undefined`
and `0` are falsy. -/
def truthy : Option ℚ → Bool
  | none => false
  | some q => !(q = 0)

/-- Model of `points` (src/src/App.jsx:132-136): all activities whose `lat`
and `lng` are both truthy, in itinerary order. -/
def points (itinerary : List ItineraryDay) : List Activity :=
  itinerary.flatMap fun day =>
    day.activities.filter fun act => truthy act.lat && truthy act.lng

/-- Model of the marker loop of `updateMarkers` (src/src/App.jsx:201-210):
of the points it is handed, a marker is created for exactly those whose
`lat` and `lng` are both truthy. -/
def updateMarkers (currentPoints : List Activity) : List Activity :=
  currentPoints.filter fun act => truthy act.lat && truthy act.lng

/-- Model of `SIMULATED_GEO_DATA` (src/src/App.jsx:40-49). -/
def SIMULATED_GEO_DATA : List (Str × ℚ × ℚ) :=
  [("台北車站".toList, 250478 / 10000, 1215170 / 10000),
   ("士林夜市".toList, 250878 / 10000, 1215241 / 10000),
   ("故宮博物院".toList, 251024 / 10000, 1215485 / 10000),
   ("台北101".toList, 250339 / 10000, 1215645 / 10000),
   ("桃園機場".toList, 250797 / 10000, 1212342 / 10000),
   ("信義區".toList, 250339 / 10000, 1215645 / 10000),
   ("東京車站".toList, 356812 / 10000, 1397671 / 10000),
   ("澀谷".toList, 356591 / 10000, 1397031 / 10000)]

/-- The simulated network delay of one `geocodeLocation` call, in
milliseconds (src/src/App.jsx:55-58). -/
def GEOCODE_DELAY : Nat := 800

/-- The property names every plain JS object literal inherits from
`Object.prototype`: reading `SIMULATED_GEO_DATA[name]` for one of these
yields the inherited function (or, for `__proto__`, the prototype object) —
a truthy value — rather than `undefined`. -/
def OBJECT_PROTOTYPE_PROPS : List Str :=
  ["constructor", "hasOwnProperty", "isPrototypeOf", "propertyIsEnumerable",
   "toLocaleString", "toString", "valueOf", "__proto__", "__defineGetter__",
   "__defineSetter__", "__lookupGetter__", "__lookupSetter__"].map
    String.toList

/-- The value of the JS property read `SIMULATED_GEO_DATA[name.trim()]`
(src/src/App.jsx:56): an own coordinate entry of the table; or an inherited
`Object.prototype` member (truthy, but with no `lat`/`lng` fields); or
`undefined`, which `|| null` turns into `null`. -/
inductive GeoLookup
  | coords (lat lng : ℚ)
  | protoProp
  | absent
deriving DecidableEq, Repr

/-- JS truthiness of the looked-up value: coordinate objects and inherited
prototype members are truthy, `null` is falsy. -/
def GeoLookup.truthy : GeoLookup → Bool
  | .absent => false
  | _ => true

/-- Model of `geocodeLocation` (src/src/App.jsx:52-60): after the simulated
delay, resolves the JS property read on the table object — own entries
first, then the members inherited from `Object.prototype`, else `null`. -/
def geocodeLocation (locationName : Str) : GeoLookup :=
  match SIMULATED_GEO_DATA.find? fun e => e.1 = jsTrim locationName with
  | some e => .coords e.2.1 e.2.2
  | none =>
    if OBJECT_PROTOTYPE_PROPS.contains (jsTrim locationName) then .protoProp
    else .absent

/-- An observable suspension of `handleGeocode`: one `geocodeLocation` call
with its simulated latency, or one backoff `setTimeout` wait. -/
inductive GeoEvent
  | call (latency : Nat)
  | wait (ms : Nat)
deriving DecidableEq, Repr

/-- The terminal `geocodeStatus` `handleGeocode` sets: `'found'` with the
coordinates stored by `setLat`/`setLng` (both `undefined` when the truthy
lookup result was an inherited prototype member), `'not_found'`, or no
status change at all (the early return on a blank location,
src/src/App.jsx:651). -/
inductive GeoOutcome
  | found (lat lng : Option ℚ)
  | notFound
  | noop
deriving DecidableEq, Repr

/-- The retry loop of `handleGeocode` (src/src/App.jsx:659-674) as the list
of suspensions it performs: `fuel` is the number of attempts still allowed
(`maxRetries - i`), `delay` the current backoff; the loop breaks on the
first truthy result and only waits when further attempts remain. -/
def geocodeLoop (name : Str) : Nat → Nat → List GeoEvent
  | 0, _ => []
  | fuel + 1, delay =>
    GeoEvent.call GEOCODE_DELAY ::
      (if (geocodeLocation name).truthy then []
       else if 0 < fuel then
         GeoEvent.wait delay :: geocodeLoop name fuel (delay * 2)
       else [])

/-- Model of `handleGeocode` (src/src/App.jsx:650-684): the guard on a blank
location, then up to `maxRetries = 3` attempts starting with a 200 ms
backoff, and the final status: `'found'` on the first truthy result (with
`result.lat`/`result.lng`, which are `undefined` for an inherited prototype
member), `'not_found'` after retries are exhausted. -/
def handleGeocode (location : Str) : List GeoEvent × GeoOutcome :=
  if jsTrim location = [] then ([], .noop)
  else
    (geocodeLoop location 3 200,
     match geocodeLocation location with
     | .coords lat lng => .found (some lat) (some lng)
     | .protoProp => .found none none
     | .absent => .notFound)

/-! Observation functions and invariants the claims are phrased with. -/

/-- Number of activities carrying the given id in one day bucket. -/
def dayCountId (i : Str) (day : ItineraryDay) : Nat :=
  day.activities.countP fun a => a.id = i

/-- Number of activities carrying the given id across the whole store. -/
def storeCountId (i : Str) (s : List ItineraryDay) : Nat :=
  (s.map (dayCountId i)).sum

/-- Total number of activities across all day buckets. -/
def totalActivities (s : List ItineraryDay) : Nat :=
  (s.map fun day => day.activities.length).sum

/-- Every day bucket's activities are sorted ascending by time. -/
def TimesSorted (s : List ItineraryDay) : Prop :=
  ∀ day ∈ s, day.activities.Pairwise fun a b => a.time ≤ b.time

/-- The day buckets are strictly ascending by date. -/
def DaysOrdered (s : List ItineraryDay) : Prop :=
  s.Pairwise fun a b => a.date < b.date

/-- No day bucket is empty. -/
def DaysNonEmpty (s : List ItineraryDay) : Prop :=
  ∀ day ∈ s, day.activities ≠ []

/-- Structural form of find-first-and-replace, used to reason about
`jsFindUpdate` (proved equivalent in `jsFindUpdate_eq`). -/
def updateFirst {α : Type} (p : α → Bool) (f : α → α) : List α → List α
  | [] => []
  | x :: xs => if p x then f x :: xs else x :: updateFirst p f xs

/-! Basic lemmas. -/

theorem updateFirst_append_cons {α : Type} (p : α → Bool) (f : α → α)
    (l1 : List α) (x : α) (l2 : List α) (h1 : ∀ y ∈ l1, ¬ p y) (hx : p x) :
    updateFirst p f (l1 ++ x :: l2) = l1 ++ f x :: l2 := by
  induction l1 with
  | nil => simp [updateFirst, hx]
  | cons a l1 ih =>
    have ha : ¬ p a := h1 a (List.mem_cons_self a l1)
    have ih' := ih fun y hy => h1 y (List.mem_cons_of_mem a hy)
    simp [updateFirst, ha, ih']

theorem exists_first_split {α : Type} (p : α → Bool) (l : List α)
    (h : l.any p) : ∃ l1 x l2, l = l1 ++ x :: l2 ∧ (∀ y ∈ l1, ¬ p y) ∧ p x := by
  induction l with
  | nil => simp at h
  | cons a as ih =>
    by_cases ha : p a
    · exact ⟨[], a, as, rfl, by simp, ha⟩
    · have h' : as.any p := by simpa [List.any_cons, ha] using h
      obtain ⟨l1, x, l2, rfl, h1, hx⟩ := ih h'
      exact ⟨a :: l1, x, l2, rfl, by simpa [ha] using h1, hx⟩

theorem jsFindUpdate_eq {α : Type} (p : α → Bool) (f : α → α)
    (d : List α) (l : List α) :
    jsFindUpdate p f d l = if l.any p then updateFirst p f l else d := by
  induction l with
  | nil => simp [jsFindUpdate, updateFirst]
  | cons x xs ih =>
    by_cases hx : p x
    · simp [jsFindUpdate, List.findIdx?_cons, hx, updateFirst]
    · cases hfind : xs.findIdx? p with
      | none =>
        have hall : ∀ y ∈ xs, p y = false := List.findIdx?_eq_none_iff.mp hfind
        have hany : (x :: xs).any p = false := by
          simp only [List.any_eq_false]
          intro y hy
          rcases List.mem_cons.mp hy with rfl | hy'
          · simpa using hx
          · simpa using hall y hy'
        simp [jsFindUpdate, List.findIdx?_cons, hx, hfind, hany]
      | some j =>
        have hanyxs : xs.any p := by
          have h1 : (xs.findIdx? p).isSome = xs.any p := List.findIdx?_isSome
          rw [hfind] at h1
          simpa using h1.symm
        have hany : (x :: xs).any p = true := by simp [List.any_cons, hanyxs]
        have lhs :
            jsFindUpdate p f d (x :: xs) = x :: jsFindUpdate p f d xs := by
          simp only [jsFindUpdate, List.findIdx?_cons, hx, if_false, Bool.false_eq_true,
            List.findIdx?_start_succ, hfind, Option.map_some, List.get?_eq_getElem?,
            List.getElem?_cons_succ, Nat.zero_add, List.set_cons_succ]
          cases hxj : xs[j]? <;> simp [hxj]
        rw [lhs, ih, hany]
        simp [updateFirst, hx, hanyxs]

theorem strLe_rfl (s : Str) : strLe s s := by simp [strLe]

theorem timeLE_trans : ∀ a b c : Activity, timeLE a b → timeLE b c → timeLE a c := by
  intro a b c hab hbc
  simp only [timeLE, strLe, decide_eq_true_eq] at *
  exact le_trans hab hbc

theorem timeLE_total : ∀ a b : Activity, timeLE a b || timeLE b a := by
  intro a b
  simp only [timeLE, strLe, Bool.or_eq_true, decide_eq_true_eq]
  exact le_total a.time b.time

theorem dateLE_trans : ∀ a b c : ItineraryDay, dateLE a b → dateLE b c → dateLE a c := by
  intro a b c hab hbc
  simp only [dateLE, strLe, decide_eq_true_eq] at *
  exact le_trans hab hbc

theorem dateLE_total : ∀ a b : ItineraryDay, dateLE a b || dateLE b a := by
  intro a b
  simp only [dateLE, strLe, Bool.or_eq_true, decide_eq_true_eq]
  exact le_total a.date b.date

theorem expenseDateDesc_trans :
    ∀ a b c : ExpenseRecord, strLe b.date a.date → strLe c.date b.date →
      strLe c.date a.date := by
  intro a b c hab hbc
  simp only [strLe, decide_eq_true_eq] at *
  exact le_trans hbc hab

theorem expenseDateDesc_total :
    ∀ a b : ExpenseRecord, strLe b.date a.date || strLe a.date b.date := by
  intro a b
  simp only [strLe, Bool.or_eq_true, decide_eq_true_eq]
  exact (le_total a.date b.date).symm

theorem foldl_add_amount (l : List ExpenseRecord) (init : ℚ) :
    l.foldl (fun sum e => sum + e.amount) init = init + (l.map (·.amount)).sum := by
  induction l generalizing init with
  | nil => simp
  | cons x xs ih => simp [ih, add_assoc]

theorem truthy_iff (o : Option ℚ) : truthy o = true ↔ ∃ q, o = some q ∧ q ≠ 0 := by
  cases o <;> simp [truthy]

theorem map_if_not_mem (l : List Str) (o n : Str) (h : o ∉ l) :
    (l.map fun p => if p = o then n else p) = l := by
  induction l with
  | nil => rfl
  | cons a as ih =>
    have ha : a ≠ o := fun e => h (e ▸ List.mem_cons_self a as)
    simp [ha, ih fun hx => h (List.mem_cons_of_mem a hx)]

/-! C3: currency conversion. -/

/-- C3 counterexample: converting the nonnegative amount 0.125 in the home
currency TWD stores 0.13, not 0.125, so the claimed identity on the home
currency fails (the code always rounds to two decimals). -/
theorem C3_twdAmount_counterexample :
    (0 : ℚ) ≤ 1 / 8 ∧ twdAmount (some (1 / 8)) Currency.TWD ≠ 1 / 8 := by
  constructor
  · norm_num
  · have h : ((1 : ℚ) / 8 * EXCHANGE_RATES Currency.TWD * 100 + 1 / 2) = ((13 : ℤ) : ℚ) := by
      norm_num [EXCHANGE_RATES]
    simp only [twdAmount, jsRound, h, Int.floor_intCast]
    norm_num

/-- C3 (amended): for every currency and nonnegative amount the stored
conversion equals round(amount × rate, 2) with the rate table
TWD 1, USD 32.0, JPY 0.22, EUR 35.0, CNY 4.5; a non-numeric amount yields 0;
and conversion of a TWD amount is the identity provided the amount has at
most two decimal places (in general the code rounds the amount itself, see
the counterexample). -/
theorem C3_twdAmount_spec (a : ℚ) (c : Currency) (ha : 0 ≤ a) :
    twdAmount (some a) c = specRound2 (a * EXCHANGE_RATES c) ∧
    twdAmount none c = 0 ∧
    (∀ n : ℤ, a = (n : ℚ) / 100 → twdAmount (some a) Currency.TWD = a) := by
  refine ⟨?_, rfl, ?_⟩
  · simp [twdAmount, specRound2, jsRound, mul_assoc]
  · rintro n rfl
    have hv : (n : ℚ) / 100 * EXCHANGE_RATES Currency.TWD * 100 = (n : ℚ) := by
      norm_num [EXCHANGE_RATES]
    have hfloor : ⌊(n : ℚ) + 1 / 2⌋ = n := by
      rw [Int.floor_int_add]
      norm_num
    show (jsRound ((n : ℚ) / 100 * EXCHANGE_RATES Currency.TWD * 100) : ℚ) / 100
        = (n : ℚ) / 100
    rw [hv, jsRound, hfloor]

/-- Witness for C3: instantiated at amount 0 in JPY and at the
two-decimal TWD amount 0 = 0/100. -/
theorem C3_twdAmount_spec_witness :
    (0 : ℚ) ≤ 0 ∧
    (twdAmount (some 0) Currency.JPY = specRound2 (0 * EXCHANGE_RATES Currency.JPY) ∧
     twdAmount none Currency.JPY = 0 ∧
     (∀ n : ℤ, (0 : ℚ) = (n : ℚ) / 100 → twdAmount (some 0) Currency.TWD = 0)) :=
  ⟨le_refl 0, C3_twdAmount_spec 0 Currency.JPY (le_refl 0)⟩

/-! C4: expense filtering and the derived total. -/

/-- C4: the filtered ledger contains exactly the records whose payer matches
the filter (exact match unless the filter is the wildcard 'All') and whose
date lies in the inclusive range, each bound being ignored when empty; and
the displayed total is the sum of the home-currency amount field over
exactly the filtered records. -/
theorem C4_filteredExpenses_spec (expenses : List ExpenseRecord)
    (p s e : Str) :
    (∀ r : ExpenseRecord,
       r ∈ filteredExpenses expenses p s e ↔
         r ∈ expenses ∧ (p = allPayers ∨ r.payer = p) ∧
           (s = [] ∨ s ≤ r.date) ∧ (e = [] ∨ r.date ≤ e)) ∧
    totalExpense expenses p s e =
      ((filteredExpenses expenses p s e).map (·.amount)).sum := by
  constructor
  · intro r
    simp [filteredExpenses, List.mem_filter, strLe, and_assoc]
  · simp [totalExpense, foldl_add_amount]

/-- Witness for C4: the filter and total evaluated on a one-record ledger. -/
theorem C4_filteredExpenses_spec_witness :
    (∀ r : ExpenseRecord,
       r ∈ filteredExpenses [] allPayers [] [] ↔
         r ∈ ([] : List ExpenseRecord) ∧ (allPayers = allPayers ∨ r.payer = allPayers) ∧
           (([] : Str) = [] ∨ ([] : Str) ≤ r.date) ∧ (([] : Str) = [] ∨ r.date ≤ [])) ∧
    totalExpense [] allPayers [] [] =
      ((filteredExpenses [] allPayers [] []).map (·.amount)).sum :=
  C4_filteredExpenses_spec [] allPayers [] []

/-! C9: deleting a payer leaves the expense ledger untouched. -/

/-- C9: deleting a payer removes exactly that name from the registry and
leaves the expense list (in particular every record's payer field)
completely unchanged. -/
theorem C9_handleDeletePayer_frame (s : AppState) (target : Str) :
    (handleDeletePayer s target).expenses = s.expenses ∧
    (handleDeletePayer s target).payers = s.payers.filter fun p => p ≠ target := by
  unfold handleDeletePayer savePayers
  by_cases h : s.formPayer = target <;> simp [h]

/-! C10: the points handed to the map view. -/

/-- C10: an activity is handed to the map view iff it sits in some itinerary
day and both its lat and lng are truthy; in particular an activity whose lat
or lng is 0 or missing is excluded, and the marker loop re-check filters
nothing further. -/
theorem C10_points_spec (itinerary : List ItineraryDay) (a : Activity) :
    (a ∈ points itinerary ↔
       ∃ day ∈ itinerary, a ∈ day.activities ∧
         (∃ q, a.lat = some q ∧ q ≠ 0) ∧ (∃ q, a.lng = some q ∧ q ≠ 0)) ∧
    ((a.lat = none ∨ a.lat = some 0 ∨ a.lng = none ∨ a.lng = some 0) →
       a ∉ points itinerary) ∧
    updateMarkers (points itinerary) = points itinerary := by
  have hmem : a ∈ points itinerary ↔
      ∃ day ∈ itinerary, a ∈ day.activities ∧
        (∃ q, a.lat = some q ∧ q ≠ 0) ∧ (∃ q, a.lng = some q ∧ q ≠ 0) := by
    simp [points, List.mem_flatMap, List.mem_filter, truthy_iff, and_assoc]
  refine ⟨hmem, ?_, ?_⟩
  · intro hbad hin
    rw [hmem] at hin
    obtain ⟨day, -, -, ⟨q1, hq1, hq1ne⟩, ⟨q2, hq2, hq2ne⟩⟩ := hin
    rcases hbad with h | h | h | h <;> simp_all
  · rw [updateMarkers, List.filter_eq_self]
    intro x hx
    rw [points] at hx
    obtain ⟨day, -, hin⟩ := List.mem_flatMap.mp hx
    exact (List.mem_filter.mp hin).2

/-- Witness for C10: a zero longitude excludes the activity from the map. -/
theorem C10_points_spec_witness :
    ((⟨['a'], ['d'], ['t'], ['i'], ['x'], ['l'], some 1, some 0⟩ : Activity).lat = none ∨
     (⟨['a'], ['d'], ['t'], ['i'], ['x'], ['l'], some 1, some 0⟩ : Activity).lat = some 0 ∨
     (⟨['a'], ['d'], ['t'], ['i'], ['x'], ['l'], some 1, some 0⟩ : Activity).lng = none ∨
     (⟨['a'], ['d'], ['t'], ['i'], ['x'], ['l'], some 1, some 0⟩ : Activity).lng = some 0) ∧
    (⟨['a'], ['d'], ['t'], ['i'], ['x'], ['l'], some 1, some 0⟩ : Activity) ∉
      points [⟨['d'], [⟨['a'], ['d'], ['t'], ['i'], ['x'], ['l'], some 1, some 0⟩]⟩] :=
  ⟨Or.inr (Or.inr (Or.inr rfl)),
   (C10_points_spec [⟨['d'], [⟨['a'], ['d'], ['t'], ['i'], ['x'], ['l'], some 1, some 0⟩]⟩]
      ⟨['a'], ['d'], ['t'], ['i'], ['x'], ['l'], some 1, some 0⟩).2.1
     (Or.inr (Or.inr (Or.inr rfl)))⟩

/-! C5: geocoding retry policy. -/

theorem geocodeLoop_of_absent (name : Str)
    (h : geocodeLocation name = GeoLookup.absent) :
    geocodeLoop name 3 200 =
      [GeoEvent.call 800, GeoEvent.wait 200, GeoEvent.call 800,
       GeoEvent.wait 400, GeoEvent.call 800] := by
  show geocodeLoop name (2 + 1) 200 = _
  rw [geocodeLoop, h]
  show GeoEvent.call GEOCODE_DELAY ::
      (GeoEvent.wait 200 :: geocodeLoop name (1 + 1) (200 * 2)) = _
  rw [geocodeLoop, h]
  show GeoEvent.call GEOCODE_DELAY :: GeoEvent.wait 200 ::
      GeoEvent.call GEOCODE_DELAY ::
      (GeoEvent.wait 400 :: geocodeLoop name (0 + 1) (400 * 2)) = _
  rw [geocodeLoop, h]
  rfl

theorem geocodeLoop_of_truthy (name : Str)
    (h : (geocodeLocation name).truthy = true) :
    geocodeLoop name 3 200 = [GeoEvent.call 800] := by
  show geocodeLoop name (2 + 1) 200 = _
  rw [geocodeLoop, h]
  rfl

/-- C5 counterexample, two failing inputs for the claim as stated.  A
whitespace-only location name is not in the geocoding table, yet
`handleGeocode` short-circuits on its blank-location guard
(src/src/App.jsx:651): 0 lookup attempts rather than 3 and no NotFound
report.  And the name 'toString' is not in the table either, yet the JS
property read `SIMULATED_GEO_DATA['toString']` yields the truthy inherited
`Object.prototype.toString`, so `handleGeocode` stops after 1 attempt and
reports 'found' (with undefined coordinates) instead of NotFound after 3. -/
theorem C5_handleGeocode_counterexample :
    ((SIMULATED_GEO_DATA.find? fun e => e.1 = jsTrim [' ']) = none ∧
     handleGeocode [' '] = ([], GeoOutcome.noop)) ∧
    ((SIMULATED_GEO_DATA.find? fun e => e.1 = jsTrim "toString".toList) = none ∧
     handleGeocode "toString".toList =
       ([GeoEvent.call 800], GeoOutcome.found none none)) := by
  refine ⟨⟨?_, ?_⟩, ?_, ?_⟩ <;> rfl

/-- C5 (amended): for every location name that is nonblank after trimming,
not in the geocoding table, and not the name of an inherited
`Object.prototype` member, `handleGeocode` performs exactly 3 lookup
attempts, with a 200 ms backoff wait before the second and a 400 ms backoff
wait before the third; each attempt carries the simulated 800 ms call
latency, so 800 ms elapse after the third attempt is issued, and then
NotFound is reported (there is no further backoff wait after the third
attempt).  A name in the table resolves on the first attempt with no backoff
waits.  A name of an inherited `Object.prototype` member (such as
'toString') also short-circuits after one attempt, reporting 'found' with
undefined coordinates.  A blank name makes no attempt at all (see the
counterexample). -/
theorem C5_handleGeocode_spec (location : Str) (hnb : jsTrim location ≠ []) :
    ((SIMULATED_GEO_DATA.find? fun e => e.1 = jsTrim location) = none →
     OBJECT_PROTOTYPE_PROPS.contains (jsTrim location) = false →
       handleGeocode location =
         ([GeoEvent.call 800, GeoEvent.wait 200, GeoEvent.call 800,
           GeoEvent.wait 400, GeoEvent.call 800], GeoOutcome.notFound)) ∧
    (∀ e, (SIMULATED_GEO_DATA.find? fun x => x.1 = jsTrim location) = some e →
       handleGeocode location =
         ([GeoEvent.call 800], GeoOutcome.found (some e.2.1) (some e.2.2))) ∧
    ((SIMULATED_GEO_DATA.find? fun e => e.1 = jsTrim location) = none →
     OBJECT_PROTOTYPE_PROPS.contains (jsTrim location) = true →
       handleGeocode location =
         ([GeoEvent.call 800], GeoOutcome.found none none)) := by
  refine ⟨?_, ?_, ?_⟩
  · intro hfind hproto
    have h : geocodeLocation location = GeoLookup.absent := by
      rw [geocodeLocation, hfind, hproto]
      rfl
    rw [handleGeocode, if_neg hnb, geocodeLoop_of_absent location h, h]
  · intro e hfind
    have h : geocodeLocation location = GeoLookup.coords e.2.1 e.2.2 := by
      rw [geocodeLocation, hfind]
    rw [handleGeocode, if_neg hnb, geocodeLoop_of_truthy location (by rw [h]; rfl), h]
  · intro hfind hproto
    have h : geocodeLocation location = GeoLookup.protoProp := by
      rw [geocodeLocation, hfind, hproto]
      rfl
    rw [handleGeocode, if_neg hnb, geocodeLoop_of_truthy location (by rw [h]; rfl), h]

/-- Witness for C5: the unknown name 'X' exhausts the three attempts, the
known name 士林夜市 resolves on the first, and the inherited property name
'valueOf' short-circuits with undefined coordinates. -/
theorem C5_handleGeocode_spec_witness :
    (jsTrim ['X'] ≠ [] ∧
     handleGeocode ['X'] =
       ([GeoEvent.call 800, GeoEvent.wait 200, GeoEvent.call 800,
         GeoEvent.wait 400, GeoEvent.call 800], GeoOutcome.notFound)) ∧
    (jsTrim "士林夜市".toList ≠ [] ∧
     handleGeocode "士林夜市".toList =
       ([GeoEvent.call 800],
        GeoOutcome.found (some (250878 / 10000)) (some (1215241 / 10000)))) ∧
    (jsTrim "valueOf".toList ≠ [] ∧
     handleGeocode "valueOf".toList =
       ([GeoEvent.call 800], GeoOutcome.found none none)) :=
  ⟨⟨by decide, (C5_handleGeocode_spec ['X'] (by decide)).1 rfl rfl⟩,
   ⟨by decide, (C5_handleGeocode_spec "士林夜市".toList (by decide)).2.1
      ("士林夜市".toList, 250878 / 10000, 1215241 / 10000) rfl⟩,
   ⟨by decide, (C5_handleGeocode_spec "valueOf".toList (by decide)).2.2 rfl rfl⟩⟩

/-! C7: renaming a payer. -/

/-- C7 counterexample: renaming 'J' to the whitespace-only name ' ' meets
none of the claim's no-op conditions (the new name is nonempty, differs from
the old one, and its trimmed form is not in the registry), yet the code
leaves the registry unchanged instead of performing the claimed
replacement. -/
theorem C7_handleSaveEdit_counterexample :
    (([' '] : Str) ≠ [] ∧ ([' '] : Str) ≠ ['J'] ∧
      jsTrim [' '] ∉ [(['J'] : Str)]) ∧
    handleSaveEdit [['J']] (some ⟨['J'], [' ']⟩) = [['J']] ∧
    ([(['J'] : Str)].map fun p => if p = ['J'] then jsTrim [' '] else p)
      ≠ [['J']] := by
  decide

/-- C7 (amended): rename is a no-op when the new name is empty, equal to the
old name, whitespace-only (trimming to empty — the case the claim misses),
or already present in the registry after trimming; otherwise exactly the
entry equal to the old name is replaced in place by the trimmed new name,
with every other entry and the order unchanged. -/
theorem C7_handleSaveEdit_spec (payers : List Str) (ep : EditingPayer)
    (hmem : ep.originalName ∈ payers) (hnodup : payers.Nodup) :
    (ep.newName = [] → handleSaveEdit payers (some ep) = payers) ∧
    (ep.newName = ep.originalName → handleSaveEdit payers (some ep) = payers) ∧
    (jsTrim ep.newName = [] → handleSaveEdit payers (some ep) = payers) ∧
    (jsTrim ep.newName ∈ payers → handleSaveEdit payers (some ep) = payers) ∧
    (ep.newName ≠ [] → ep.newName ≠ ep.originalName → jsTrim ep.newName ≠ [] →
     jsTrim ep.newName ∉ payers →
       ∃ l1 l2, payers = l1 ++ ep.originalName :: l2 ∧
         ep.originalName ∉ l1 ∧ ep.originalName ∉ l2 ∧
         handleSaveEdit payers (some ep) = l1 ++ jsTrim ep.newName :: l2) := by
  refine ⟨?_, ?_, ?_, ?_, ?_⟩
  · intro h
    simp [handleSaveEdit, h]
  · intro h
    simp [handleSaveEdit, h]
  · intro h
    by_cases hguard : ep.newName = [] ∨ ep.newName = ep.originalName
    · simp [handleSaveEdit, hguard]
    · simp [handleSaveEdit, hguard, h]
  · intro h
    by_cases hguard : ep.newName = [] ∨ ep.newName = ep.originalName
    · simp [handleSaveEdit, hguard]
    · simp [handleSaveEdit, hguard, h]
  · intro h1 h2 h3 h4
    obtain ⟨l1, l2, rfl⟩ := List.append_of_mem hmem
    have hnodup' := hnodup
    rw [List.nodup_append] at hnodup'
    obtain ⟨hn1, hn2, hdisj⟩ := hnodup'
    have ho1 : ep.originalName ∉ l1 := fun hin =>
      hdisj hin (List.mem_cons_self _ _)
    have ho2 : ep.originalName ∉ l2 := (List.nodup_cons.mp hn2).1
    refine ⟨l1, l2, rfl, ho1, ho2, ?_⟩
    have hguard : ¬ (ep.newName = [] ∨ ep.newName = ep.originalName) := by
      simp [h1, h2]
    simp only [handleSaveEdit, hguard, if_neg, if_false]
    rw [if_pos ⟨h3, h4⟩, List.map_append, List.map_cons, if_pos rfl,
      map_if_not_mem l1 _ _ ho1, map_if_not_mem l2 _ _ ho2]

/-- Witness for C7: renaming 'J' to itself is a no-op on the registry. -/
theorem C7_handleSaveEdit_spec_witness :
    handleSaveEdit [['J']] (some ⟨['J'], ['J']⟩) = [['J']] :=
  (C7_handleSaveEdit_spec [['J']] ⟨['J'], ['J']⟩ (by decide) (by decide)).2.1 rfl

/-! C8: adding an expense record. -/

/-- C8: adding an expense appends the record and re-sorts the whole list
descending by date with a stable sort: the result is a permutation of the
append, it is sorted descending by date, and a record stays before a
same-date record added after it. -/
theorem C8_handleExpenseSave_add (prev : List ExpenseRecord)
    (e1 e2 : ExpenseRecord) :
    (handleExpenseSave prev e1 false).Pairwise (fun a b => b.date ≤ a.date) ∧
    (handleExpenseSave prev e1 false).Perm (prev ++ [e1]) ∧
    (e1.date = e2.date →
       [e1, e2].Sublist (handleExpenseSave (handleExpenseSave prev e1 false) e2 false)) := by
  refine ⟨?_, ?_, ?_⟩
  · have h := @List.sorted_mergeSort ExpenseRecord
      (fun a b : ExpenseRecord => strLe b.date a.date)
      expenseDateDesc_trans expenseDateDesc_total (prev ++ [e1])
    have h' : (handleExpenseSave prev e1 false).Pairwise
        (fun a b : ExpenseRecord => strLe b.date a.date) := by
      simpa [handleExpenseSave] using h
    exact h'.imp (by intro a b hb; simpa [strLe] using hb)
  · simpa [handleExpenseSave] using
      List.mergeSort_perm (prev ++ [e1]) (fun a b => strLe b.date a.date)
  · intro hdate
    have he1 : e1 ∈ handleExpenseSave prev e1 false := by
      simp [handleExpenseSave, List.mem_mergeSort]
    have hsub : [e1, e2].Sublist (handleExpenseSave prev e1 false ++ [e2]) := by
      have h1 : [e1].Sublist (handleExpenseSave prev e1 false) :=
        List.singleton_sublist.mpr he1
      simpa using h1.append (List.Sublist.refl [e2])
    have hle : strLe e2.date e1.date := by simp [strLe, hdate]
    have h2 := List.pair_sublist_mergeSort expenseDateDesc_trans
      expenseDateDesc_total hle hsub
    simpa [handleExpenseSave] using h2

/-- Witness for C8: two same-date records added in order stay in insertion
order among each other. -/
theorem C8_handleExpenseSave_add_witness :
    [({ id := 1, date := ['d'], category := [], description := [],
        amount := 1, currency := [], inputAmount := 1, inputCurrency := [],
        payer := [] } : ExpenseRecord),
     ({ id := 2, date := ['d'], category := [], description := [],
        amount := 2, currency := [], inputAmount := 2, inputCurrency := [],
        payer := [] } : ExpenseRecord)].Sublist
      (handleExpenseSave
        (handleExpenseSave []
          { id := 1, date := ['d'], category := [], description := [],
            amount := 1, currency := [], inputAmount := 1, inputCurrency := [],
            payer := [] } false)
        { id := 2, date := ['d'], category := [], description := [],
          amount := 2, currency := [], inputAmount := 2, inputCurrency := [],
          payer := [] } false) :=
  (C8_handleExpenseSave_add []
    { id := 1, date := ['d'], category := [], description := [],
      amount := 1, currency := [], inputAmount := 1, inputCurrency := [],
      payer := [] }
    { id := 2, date := ['d'], category := [], description := [],
      amount := 2, currency := [], inputAmount := 2, inputCurrency := [],
      payer := [] }).2.2 rfl

/-! Toolkit for the itinerary-store claims (C1, C2, C6). -/

theorem handleActivitySave_move (prev : List ItineraryDay)
    (activity : ActivityInput) (isEdit : Bool) (od : Str)
    (hmv : isDateMove activity isEdit = true)
    (hod : activity.originalDate = some od) :
    handleActivitySave prev activity isEdit =
      if (removeStage prev activity.id od).any (fun day => day.date = activity.date) = true
      then updateFirst (fun day => day.date = activity.date) (moveUpsert activity)
             (removeStage prev activity.id od)
      else insertNewDay (removeStage prev activity.id od) activity := by
  rw [handleActivitySave, if_pos hmv, hod, Option.getD_some, jsFindUpdate_eq]

theorem handleActivitySave_simple (prev : List ItineraryDay)
    (activity : ActivityInput) (isEdit : Bool)
    (hmv : isDateMove activity isEdit = false) :
    handleActivitySave prev activity isEdit =
      if prev.any (fun day => day.date = activity.date) = true
      then updateFirst (fun day => day.date = activity.date)
             (simpleUpsert activity isEdit) prev
      else insertNewDay prev activity := by
  rw [handleActivitySave, if_neg (by simp [hmv]), jsFindUpdate_eq]

theorem isDateMove_elim (activity : ActivityInput) (isEdit : Bool)
    (h : isDateMove activity isEdit = true) :
    isEdit = true ∧ ∃ od, activity.originalDate = some od ∧ od ≠ [] ∧
      od ≠ activity.date := by
  cases isEdit <;> cases hod : activity.originalDate <;>
    simp_all [isDateMove]

theorem removeMap_date (i d : Str) (day : ItineraryDay) :
    (if day.date = d then
       { day with activities := day.activities.filter fun a => a.id ≠ i }
     else day).date = day.date := by
  by_cases h : day.date = d <;> simp [h]

theorem removeStage_mem (prev : List ItineraryDay) (i d : Str) :
    ∀ day ∈ removeStage prev i d, 0 < day.activities.length ∧
      ∃ day0 ∈ prev,
        day = if day0.date = d then
          { day0 with activities := day0.activities.filter fun a => a.id ≠ i }
        else day0 := by
  intro day hday
  rw [removeStage, List.mem_filter] at hday
  obtain ⟨hin, hlen⟩ := hday
  obtain ⟨day0, h0, rfl⟩ := List.mem_map.mp hin
  exact ⟨by simpa using hlen, day0, h0, rfl⟩

theorem removeStage_dates_sublist (prev : List ItineraryDay) (i d : Str) :
    ((removeStage prev i d).map fun day => day.date).Sublist
      (prev.map fun day => day.date) := by
  have hsub : (removeStage prev i d).Sublist
      (prev.map fun day =>
        if day.date = d then
          { day with activities := day.activities.filter fun a => a.id ≠ i }
        else day) := List.filter_sublist _
  have h2 := hsub.map fun day : ItineraryDay => day.date
  rw [List.map_map] at h2
  have hcomp : ((fun day : ItineraryDay => day.date) ∘ fun day =>
      if day.date = d then
        { day with activities := day.activities.filter fun a => a.id ≠ i }
      else day) = fun day : ItineraryDay => day.date := by
    funext day
    exact removeMap_date i d day
  rwa [hcomp] at h2

theorem map_removeId_not_date (l : List ItineraryDay) (i d : Str)
    (h : ∀ y ∈ l, y.date ≠ d) :
    (l.map fun day =>
      if day.date = d then
        { day with activities := day.activities.filter fun a => a.id ≠ i }
      else day) = l := by
  induction l with
  | nil => rfl
  | cons a as ih =>
    have ha : a.date ≠ d := h a (List.mem_cons_self _ _)
    rw [List.map_cons, if_neg ha, ih fun y hy => h y (List.mem_cons_of_mem _ hy)]

theorem totalActivities_cons (day : ItineraryDay) (l : List ItineraryDay) :
    totalActivities (day :: l) = day.activities.length + totalActivities l := by
  simp [totalActivities]

theorem totalActivities_append (l1 l2 : List ItineraryDay) :
    totalActivities (l1 ++ l2) = totalActivities l1 + totalActivities l2 := by
  simp [totalActivities]

theorem totalActivities_perm (l1 l2 : List ItineraryDay) (h : l1.Perm l2) :
    totalActivities l1 = totalActivities l2 := by
  have h2 := (h.map fun day : ItineraryDay => day.activities.length).sum_eq
  simpa [totalActivities] using h2

theorem totalActivities_filter_pos (l : List ItineraryDay) :
    totalActivities (l.filter fun day => 0 < day.activities.length)
      = totalActivities l := by
  induction l with
  | nil => rfl
  | cons x xs ih =>
    by_cases hx : 0 < x.activities.length
    · rw [List.filter_cons_of_pos (by simpa using hx), totalActivities_cons,
        totalActivities_cons, ih]
    · have hlen : x.activities.length = 0 := by omega
      rw [List.filter_cons_of_neg (by simpa using hx), totalActivities_cons,
        hlen, ih]
      omega

theorem countP_id_filter (l : List Activity) (i : Str) :
    (l.filter fun a => a.id ≠ i).countP (fun a => a.id = i) = 0 := by
  rw [List.countP_eq_zero]
  intro a ha
  have h2 := (List.mem_filter.mp ha).2
  simpa using h2

theorem length_filter_id (l : List Activity) (i : Str) :
    (l.filter fun a => a.id ≠ i).length + l.countP (fun a => a.id = i)
      = l.length := by
  induction l with
  | nil => rfl
  | cons a as ih =>
    by_cases h : a.id = i
    · rw [List.filter_cons_of_neg (by simpa using h),
        List.countP_cons_of_pos _ _ (by simpa using h), List.length_cons]
      omega
    · rw [List.filter_cons_of_pos (by simpa using h),
        List.countP_cons_of_neg _ _ (by simpa using h), List.length_cons,
        List.length_cons]
      omega

theorem countP_id_map_upsert (l : List Activity) (activity : ActivityInput) :
    ((l.map fun a => if a.id = activity.id then stripOriginalDate activity else a).countP
      fun a => a.id = activity.id) = l.countP fun a => a.id = activity.id := by
  induction l with
  | nil => rfl
  | cons a as ih =>
    by_cases h : a.id = activity.id
    · rw [List.map_cons, if_pos h,
        List.countP_cons_of_pos _ _ (by simp [stripOriginalDate]),
        List.countP_cons_of_pos _ _ (by simpa using h), ih]
    · rw [List.map_cons, if_neg h,
        List.countP_cons_of_neg _ _ (by simpa using h),
        List.countP_cons_of_neg _ _ (by simpa using h), ih]

theorem any_id_eq_false_of_countP (l : List Activity) (i : Str)
    (h : l.countP (fun a => a.id = i) = 0) :
    l.any (fun a => a.id = i) = false := by
  rw [List.any_eq_false]
  intro a ha
  have h2 := List.countP_eq_zero.mp h a ha
  simpa using h2

theorem moveUpsert_date (activity : ActivityInput) (day : ItineraryDay) :
    (moveUpsert activity day).date = day.date := rfl

theorem simpleUpsert_date (activity : ActivityInput) (isEdit : Bool)
    (day : ItineraryDay) : (simpleUpsert activity isEdit day).date = day.date := rfl

theorem moveUpsert_activities (activity : ActivityInput) (day : ItineraryDay) :
    (moveUpsert activity day).activities =
      (if ((day.activities.map fun a =>
            if a.id = activity.id then stripOriginalDate activity else a).any
            fun a => a.id = activity.id) = true
       then day.activities.map fun a =>
         if a.id = activity.id then stripOriginalDate activity else a
       else (day.activities.map fun a =>
           if a.id = activity.id then stripOriginalDate activity else a) ++
         [stripOriginalDate activity]).mergeSort timeLE := rfl

theorem simpleUpsert_activities (activity : ActivityInput) (isEdit : Bool)
    (day : ItineraryDay) :
    (simpleUpsert activity isEdit day).activities =
      (if isEdit = true
       then day.activities.map fun a =>
         if a.id = activity.id then stripOriginalDate activity else a
       else day.activities ++ [stripOriginalDate activity]).mergeSort timeLE := rfl

theorem moveUpsert_count (activity : ActivityInput) (day : ItineraryDay)
    (h : dayCountId activity.id day = 0) :
    dayCountId activity.id (moveUpsert activity day) = 1 ∧
    (moveUpsert activity day).activities.length
      = day.activities.length + 1 := by
  have h' : day.activities.countP (fun a => a.id = activity.id) = 0 := h
  have hmap := countP_id_map_upsert day.activities activity
  have hany := any_id_eq_false_of_countP _ _ (hmap.trans h')
  have hacts : (moveUpsert activity day).activities =
      ((day.activities.map fun a =>
          if a.id = activity.id then stripOriginalDate activity else a) ++
        [stripOriginalDate activity]).mergeSort timeLE := by
    rw [moveUpsert_activities, if_neg (by simp [hany])]
  have hperm := List.mergeSort_perm
    ((day.activities.map fun a =>
        if a.id = activity.id then stripOriginalDate activity else a) ++
      [stripOriginalDate activity]) timeLE
  constructor
  · show (moveUpsert activity day).activities.countP
      (fun a => a.id = activity.id) = 1
    rw [hacts, hperm.countP_eq, List.countP_append, hmap, h']
    simp [stripOriginalDate, List.countP_cons]
  · rw [hacts, List.length_mergeSort, List.length_append, List.length_map]
    simp

theorem pairwise_time_of_mergeSort (l : List Activity) :
    (l.mergeSort timeLE).Pairwise fun a b => a.time ≤ b.time := by
  have h := @List.sorted_mergeSort Activity timeLE timeLE_trans timeLE_total l
  exact h.imp (by intro a b hb; simpa [timeLE, strLe] using hb)

theorem pairwise_date_of_mergeSort (l : List ItineraryDay) :
    (l.mergeSort dateLE).Pairwise fun a b => dateLE a b :=
  @List.sorted_mergeSort ItineraryDay dateLE dateLE_trans dateLE_total l

theorem moveUpsert_timesSorted (activity : ActivityInput) (day : ItineraryDay) :
    (moveUpsert activity day).activities.Pairwise fun a b => a.time ≤ b.time := by
  rw [moveUpsert_activities]
  exact pairwise_time_of_mergeSort _

theorem simpleUpsert_timesSorted (activity : ActivityInput) (isEdit : Bool)
    (day : ItineraryDay) :
    (simpleUpsert activity isEdit day).activities.Pairwise
      fun a b => a.time ≤ b.time := by
  rw [simpleUpsert_activities]
  exact pairwise_time_of_mergeSort _

theorem moveUpsert_nonempty (activity : ActivityInput) (day : ItineraryDay) :
    (moveUpsert activity day).activities ≠ [] := by
  rw [moveUpsert_activities]
  intro hnil
  have hlen := congrArg List.length hnil
  rw [List.length_mergeSort] at hlen
  by_cases hany : ((day.activities.map fun a =>
      if a.id = activity.id then stripOriginalDate activity else a).any
      fun a => a.id = activity.id) = true
  · rw [if_pos hany] at hlen
    obtain ⟨x, hx, -⟩ := List.any_eq_true.mp hany
    simp only [List.length_nil, List.length_eq_zero] at hlen
    rw [hlen] at hx
    simp at hx
  · rw [if_neg hany] at hlen
    simp at hlen

theorem simpleUpsert_nonempty (activity : ActivityInput) (isEdit : Bool)
    (day : ItineraryDay) (h : day.activities ≠ []) :
    (simpleUpsert activity isEdit day).activities ≠ [] := by
  rw [simpleUpsert_activities]
  intro hnil
  have hlen := congrArg List.length hnil
  rw [List.length_mergeSort] at hlen
  cases isEdit
  · simp at hlen
  · simp at hlen
    exact h hlen

theorem mem_updateFirst {α : Type} (p : α → Bool) (f : α → α) (l : List α) :
    ∀ b ∈ updateFirst p f l, b ∈ l ∨ ∃ y ∈ l, b = f y := by
  induction l with
  | nil => simp [updateFirst]
  | cons a as ih =>
    intro b hb
    by_cases ha : p a
    · rw [updateFirst, if_pos ha] at hb
      rcases List.mem_cons.mp hb with rfl | hb'
      · exact Or.inr ⟨a, List.mem_cons_self _ _, rfl⟩
      · exact Or.inl (List.mem_cons_of_mem _ hb')
    · rw [updateFirst, if_neg ha] at hb
      rcases List.mem_cons.mp hb with rfl | hb'
      · exact Or.inl (List.mem_cons_self _ _)
      · rcases ih b hb' with h1 | ⟨y, hy, rfl⟩
        · exact Or.inl (List.mem_cons_of_mem _ h1)
        · exact Or.inr ⟨y, List.mem_cons_of_mem _ hy, rfl⟩

theorem updateFirst_pred {α : Type} (P : α → Prop) (p : α → Bool) (f : α → α)
    (l : List α) (hl : ∀ x ∈ l, P x) (hf : ∀ x ∈ l, P (f x)) :
    ∀ b ∈ updateFirst p f l, P b := by
  intro b hb
  rcases mem_updateFirst p f l b hb with h | ⟨y, hy, rfl⟩
  · exact hl b h
  · exact hf y hy

theorem updateFirst_daysOrdered (p : ItineraryDay → Bool)
    (f : ItineraryDay → ItineraryDay) (hdate : ∀ day, (f day).date = day.date)
    (l : List ItineraryDay) (h : DaysOrdered l) :
    DaysOrdered (updateFirst p f l) := by
  induction l with
  | nil => simpa [updateFirst] using h
  | cons a as ih =>
    rw [DaysOrdered, List.pairwise_cons] at h
    by_cases ha : p a
    · rw [updateFirst, if_pos ha, DaysOrdered, List.pairwise_cons]
      exact ⟨fun b hb => by rw [hdate]; exact h.1 b hb, h.2⟩
    · rw [updateFirst, if_neg ha, DaysOrdered, List.pairwise_cons]
      refine ⟨fun b hb => ?_, ih h.2⟩
      rcases mem_updateFirst p f as b hb with h1 | ⟨y, hy, rfl⟩
      · exact h.1 b h1
      · rw [hdate]
        exact h.1 y hy

theorem date_not_in_parts (m1 m2 : List ItineraryDay) (y : ItineraryDay)
    (hnd : ((m1 ++ y :: m2).map fun day => day.date).Nodup) :
    (∀ z ∈ m1, z.date ≠ y.date) ∧ (∀ z ∈ m2, z.date ≠ y.date) := by
  rw [List.map_append, List.map_cons, List.nodup_append] at hnd
  obtain ⟨h1, h2, hdisj⟩ := hnd
  constructor
  · intro z hz he
    exact hdisj (List.mem_map_of_mem _ hz)
      (he ▸ List.mem_cons_self _ _)
  · intro z hz he
    exact (List.nodup_cons.mp h2).1 (he ▸ List.mem_map_of_mem _ hz)

theorem daysOrdered_nodup (s : List ItineraryDay) (h : DaysOrdered s) :
    (s.map fun day => day.date).Nodup :=
  List.Pairwise.map _ (fun _ _ hab => ne_of_lt hab) h

theorem mkday_activities (d : Str) (l : List Activity) :
    (ItineraryDay.mk d l).activities = l := rfl

theorem daysOrdered_of_pairwise_le (s : List ItineraryDay)
    (hle : s.Pairwise fun a b => dateLE a b)
    (hnd : (s.map fun day => day.date).Nodup) : DaysOrdered s := by
  have hne : s.Pairwise fun a b => a.date ≠ b.date := by
    have h2 := (List.pairwise_map (f := fun day : ItineraryDay => day.date)).mp hnd
    exact h2
  exact (hle.and hne).imp fun hab =>
    lt_of_le_of_ne (by simpa [dateLE, strLe] using hab.1) hab.2

/-! C2 and C6: itinerary invariants. -/

/-- C2: in an itinerary whose day buckets are each sorted ascending by time
(lexicographic on the HH:MM string), every remaining bucket is still sorted
ascending by time after any mutation: `handleActivitySave` in any mode
(add, in-place edit, or date-move) and `handleActivityDelete`. -/
theorem C2_time_order (prev : List ItineraryDay) (activity : ActivityInput)
    (isEdit : Bool) (aid adate : Str) (h : TimesSorted prev) :
    TimesSorted (handleActivitySave prev activity isEdit) ∧
    TimesSorted (handleActivityDelete prev aid adate) := by
  have h' : ∀ day ∈ prev, day.activities.Pairwise fun a b => a.time ≤ b.time := h
  have hremove : ∀ i d, ∀ day ∈ removeStage prev i d,
      day.activities.Pairwise fun a b => a.time ≤ b.time := by
    intro i d day hday
    obtain ⟨-, day0, h0, hcase⟩ := removeStage_mem prev i d day hday
    by_cases hd : day0.date = d
    · rw [hcase, if_pos hd]
      exact (h day0 h0).sublist (List.filter_sublist _)
    · rw [hcase, if_neg hd]
      exact h day0 h0
  constructor
  · by_cases hmv : isDateMove activity isEdit = true
    · obtain ⟨-, od, hod, -, -⟩ := isDateMove_elim activity isEdit hmv
      rw [handleActivitySave_move prev activity isEdit od hmv hod]
      by_cases hany : (removeStage prev activity.id od).any
          (fun day => day.date = activity.date) = true
      · rw [if_pos hany]
        intro day hday
        exact updateFirst_pred
          (fun day => day.activities.Pairwise fun a b => a.time ≤ b.time)
          _ _ _ (hremove activity.id od)
          (fun x _ => moveUpsert_timesSorted activity x) day hday
      · rw [if_neg hany]
        intro day hday
        rw [insertNewDay, List.mem_mergeSort, List.mem_append] at hday
        rcases hday with h1 | h1
        · exact hremove activity.id od day h1
        · rcases List.mem_singleton.mp h1 with rfl
          simp
    · rw [handleActivitySave_simple prev activity isEdit (by simpa using hmv)]
      by_cases hany : prev.any (fun day => day.date = activity.date) = true
      · rw [if_pos hany]
        intro day hday
        exact updateFirst_pred
          (fun day => day.activities.Pairwise fun a b => a.time ≤ b.time)
          _ _ _ h' (fun x _ => simpleUpsert_timesSorted activity isEdit x) day hday
      · rw [if_neg hany]
        intro day hday
        rw [insertNewDay, List.mem_mergeSort, List.mem_append] at hday
        rcases hday with h1 | h1
        · exact h day h1
        · rcases List.mem_singleton.mp h1 with rfl
          simp
  · intro day hday
    exact hremove aid adate day hday

/-- Witness for C2: the invariant is preserved on a concrete sorted store. -/
theorem C2_time_order_witness :
    TimesSorted (handleActivitySave
      [⟨['1'], [⟨['a'], ['1'], ['0', '9'], [], [], [], none, none⟩]⟩]
      ⟨['b'], ['1'], ['1', '2'], [], [], [], none, none, none⟩ false) ∧
    TimesSorted (handleActivityDelete
      [⟨['1'], [⟨['a'], ['1'], ['0', '9'], [], [], [], none, none⟩]⟩]
      ['a'] ['1']) :=
  C2_time_order
    [⟨['1'], [⟨['a'], ['1'], ['0', '9'], [], [], [], none, none⟩]⟩]
    ⟨['b'], ['1'], ['1', '2'], [], [], [], none, none, none⟩ false ['a'] ['1']
    (by simp only [TimesSorted]; decide)

/-- C6: in an itinerary whose day buckets are strictly ascending by date and
all nonempty, the buckets are again strictly ascending by date and nonempty
after any mutation: `handleActivitySave` in any mode and
`handleActivityDelete`. -/
theorem C6_day_invariants (prev : List ItineraryDay) (activity : ActivityInput)
    (isEdit : Bool) (aid adate : Str)
    (hord : DaysOrdered prev) (hne : DaysNonEmpty prev) :
    (DaysOrdered (handleActivitySave prev activity isEdit) ∧
     DaysNonEmpty (handleActivitySave prev activity isEdit)) ∧
    (DaysOrdered (handleActivityDelete prev aid adate) ∧
     DaysNonEmpty (handleActivityDelete prev aid adate)) := by
  have hremord : ∀ i d, DaysOrdered (removeStage prev i d) := by
    intro i d
    have hmap : (prev.map fun day =>
        if day.date = d then
          { day with activities := day.activities.filter fun a => a.id ≠ i }
        else day).Pairwise fun a b => a.date < b.date := by
      rw [List.pairwise_map]
      exact hord.imp fun hab => by
        rw [removeMap_date, removeMap_date]
        exact hab
    exact hmap.sublist (List.filter_sublist _)
  have hne' : ∀ day ∈ prev, day.activities ≠ [] := hne
  have hremne : ∀ i d, ∀ day ∈ removeStage prev i d, day.activities ≠ [] := by
    intro i d day hday
    have h2 := (List.mem_filter.mp hday).2
    intro hnil
    rw [hnil] at h2
    simp at h2
  have hinsert : ∀ l : List ItineraryDay, DaysOrdered l → DaysNonEmpty l →
      l.any (fun day => day.date = activity.date) = false →
      DaysOrdered (insertNewDay l activity) ∧
      DaysNonEmpty (insertNewDay l activity) := by
    intro l hlord hlne hany
    have hnodupdates : ((l ++
        [(⟨activity.date, [stripOriginalDate activity]⟩ : ItineraryDay)]).map
        fun day : ItineraryDay => day.date).Nodup := by
      rw [List.map_append]
      refine List.Nodup.append (daysOrdered_nodup l hlord) (by simp) ?_
      intro x hx hx2
      obtain ⟨z, hz, rfl⟩ := List.mem_map.mp hx
      have hx2' : z.date = activity.date := by simpa using hx2
      have h3 := List.any_eq_false.mp hany z hz
      simp only [decide_eq_true_eq] at h3
      exact h3 hx2'
    constructor
    · apply daysOrdered_of_pairwise_le
      · exact pairwise_date_of_mergeSort _
      · have hperm := List.mergeSort_perm
          (l ++ [(⟨activity.date, [stripOriginalDate activity]⟩ : ItineraryDay)]) dateLE
        exact ((hperm.map fun day : ItineraryDay => day.date).nodup_iff).mpr hnodupdates
    · intro day hday
      rw [insertNewDay, List.mem_mergeSort, List.mem_append] at hday
      rcases hday with h1 | h1
      · exact hlne day h1
      · rcases List.mem_singleton.mp h1 with rfl
        simp
  refine ⟨?_, hremord aid adate, hremne aid adate⟩
  by_cases hmv : isDateMove activity isEdit = true
  · obtain ⟨-, od, hod, -, -⟩ := isDateMove_elim activity isEdit hmv
    rw [handleActivitySave_move prev activity isEdit od hmv hod]
    by_cases hany : (removeStage prev activity.id od).any
        (fun day => day.date = activity.date) = true
    · rw [if_pos hany]
      constructor
      · exact updateFirst_daysOrdered _ _ (moveUpsert_date activity) _
          (hremord activity.id od)
      · intro day hday
        exact updateFirst_pred (fun day => day.activities ≠ []) _ _ _
          (hremne activity.id od) (fun x _ => moveUpsert_nonempty activity x)
          day hday
    · rw [if_neg hany]
      exact hinsert _ (hremord activity.id od) (hremne activity.id od)
        (by simpa using hany)
  · rw [handleActivitySave_simple prev activity isEdit (by simpa using hmv)]
    by_cases hany : prev.any (fun day => day.date = activity.date) = true
    · rw [if_pos hany]
      constructor
      · exact updateFirst_daysOrdered _ _ (simpleUpsert_date activity isEdit) _ hord
      · intro day hday
        exact updateFirst_pred (fun day => day.activities ≠ []) _ _ _ hne'
          (fun x hx => simpleUpsert_nonempty activity isEdit x (hne' x hx))
          day hday
    · rw [if_neg hany]
      exact hinsert _ hord hne (by simpa using hany)

/-- Witness for C6: the invariants are preserved on a concrete store. -/
theorem C6_day_invariants_witness :
    (DaysOrdered (handleActivitySave
       [⟨['1'], [⟨['a'], ['1'], ['0', '9'], [], [], [], none, none⟩]⟩]
       ⟨['b'], ['2'], ['1', '2'], [], [], [], none, none, none⟩ false) ∧
     DaysNonEmpty (handleActivitySave
       [⟨['1'], [⟨['a'], ['1'], ['0', '9'], [], [], [], none, none⟩]⟩]
       ⟨['b'], ['2'], ['1', '2'], [], [], [], none, none, none⟩ false)) ∧
    (DaysOrdered (handleActivityDelete
       [⟨['1'], [⟨['a'], ['1'], ['0', '9'], [], [], [], none, none⟩]⟩]
       ['a'] ['1']) ∧
     DaysNonEmpty (handleActivityDelete
       [⟨['1'], [⟨['a'], ['1'], ['0', '9'], [], [], [], none, none⟩]⟩]
       ['a'] ['1'])) :=
  C6_day_invariants
    [⟨['1'], [⟨['a'], ['1'], ['0', '9'], [], [], [], none, none⟩]⟩]
    ⟨['b'], ['2'], ['1', '2'], [], [], [], none, none, none⟩ false ['a'] ['1']
    (by simp only [DaysOrdered]; decide) (by simp only [DaysNonEmpty]; decide)

/-! C1: the date-move relocation. -/

/-- C1: moving an activity from day D1 to day D2 (D1 ≠ D2; the activity's id
occurs exactly once in the store, in D1's bucket): afterwards no day with
date D1 holds the id, D1 is removed from the store when its bucket held only
the moved activity, a day with date D2 exists, every day with date D2 holds
the id exactly once, and the total number of activities across all buckets
is unchanged. -/
theorem C1_activity_move (prev : List ItineraryDay) (activity : ActivityInput)
    (d1 : Str) (hod : activity.originalDate = some d1) (hnil : d1 ≠ [])
    (hne : d1 ≠ activity.date)
    (hnodup : (prev.map fun day => day.date).Nodup)
    (hsrc : ∀ day ∈ prev, dayCountId activity.id day
      = if day.date = d1 then 1 else 0)
    (hd1 : ∃ day ∈ prev, day.date = d1) :
    (∀ day ∈ handleActivitySave prev activity true, day.date = d1 →
       dayCountId activity.id day = 0) ∧
    ((∀ day ∈ prev, day.date = d1 → day.activities.length = 1) →
       ∀ day ∈ handleActivitySave prev activity true, day.date ≠ d1) ∧
    (∃ day ∈ handleActivitySave prev activity true, day.date = activity.date) ∧
    (∀ day ∈ handleActivitySave prev activity true, day.date = activity.date →
       dayCountId activity.id day = 1) ∧
    totalActivities (handleActivitySave prev activity true)
      = totalActivities prev := by
  have hmv : isDateMove activity true = true := by
    simp [isDateMove, hod, hnil, hne]
  rw [handleActivitySave_move prev activity true d1 hmv hod]
  have hK1 : ∀ day ∈ removeStage prev activity.id d1,
      dayCountId activity.id day = 0 := by
    intro day hday
    obtain ⟨-, day0, h0, hcase⟩ := removeStage_mem prev activity.id d1 day hday
    by_cases hd : day0.date = d1
    · rw [hcase, if_pos hd]
      exact countP_id_filter day0.activities activity.id
    · rw [hcase, if_neg hd]
      have h2 := hsrc day0 h0
      rwa [if_neg hd] at h2
  have hprevany : prev.any (fun day => day.date = d1) = true := by
    obtain ⟨day, hday, hdd⟩ := hd1
    exact List.any_eq_true.mpr ⟨day, hday, by simpa using hdd⟩
  obtain ⟨l1, x, l2, hsplit, hl1, hx⟩ :=
    exists_first_split (fun day => day.date = d1) prev hprevany
  have hxdate : x.date = d1 := by simpa using hx
  have hl1' : ∀ y ∈ l1, y.date ≠ d1 := fun y hy => by simpa using hl1 y hy
  have hparts := date_not_in_parts l1 l2 x (by rw [← hsplit]; exact hnodup)
  have hl2' : ∀ z ∈ l2, z.date ≠ d1 := fun z hz he =>
    hparts.2 z hz (by rw [he, hxdate])
  have hxmem : x ∈ prev := by
    rw [hsplit]
    exact List.mem_append_right _ (List.mem_cons_self _ _)
  have hxcount : x.activities.countP (fun a => a.id = activity.id) = 1 := by
    have h2 := hsrc x hxmem
    rw [if_pos hxdate] at h2
    exact h2
  have hstage : (prev.map fun day => if day.date = d1 then
      { day with activities := day.activities.filter fun a => a.id ≠ activity.id }
      else day)
      = l1 ++ (⟨x.date,
          x.activities.filter (fun a => a.id ≠ activity.id)⟩ : ItineraryDay) :: l2 := by
    rw [hsplit, List.map_append, List.map_cons, if_pos hxdate,
      map_removeId_not_date l1 activity.id d1 hl1',
      map_removeId_not_date l2 activity.id d1 hl2']
  have hK2 : totalActivities (removeStage prev activity.id d1) + 1
      = totalActivities prev := by
    have h3 : totalActivities (removeStage prev activity.id d1)
        = totalActivities (l1 ++ (⟨x.date,
            x.activities.filter (fun a => a.id ≠ activity.id)⟩ : ItineraryDay) :: l2) := by
      rw [removeStage, hstage, totalActivities_filter_pos]
    rw [h3, totalActivities_append, totalActivities_cons, mkday_activities,
      hsplit, totalActivities_append, totalActivities_cons]
    have hlf := length_filter_id x.activities activity.id
    omega
  have hK3 : ((removeStage prev activity.id d1).map fun day => day.date).Nodup :=
    List.Nodup.sublist (removeStage_dates_sublist prev activity.id d1) hnodup
  have hK4 : (∀ day ∈ prev, day.date = d1 → day.activities.length = 1) →
      ∀ day ∈ removeStage prev activity.id d1, day.date ≠ d1 := by
    intro hlen day hday hdd
    obtain ⟨hpos, day0, h0, hcase⟩ := removeStage_mem prev activity.id d1 day hday
    by_cases hd : day0.date = d1
    · have hlen0 := hlen day0 h0 hd
      have hc : day0.activities.countP (fun a => a.id = activity.id) = 1 := by
        have h2 := hsrc day0 h0
        rw [if_pos hd] at h2
        exact h2
      have hlf := length_filter_id day0.activities activity.id
      rw [hcase, if_pos hd, mkday_activities] at hpos
      omega
    · rw [hcase, if_neg hd] at hdd
      exact hd hdd
  by_cases hany : (removeStage prev activity.id d1).any
      (fun day => day.date = activity.date) = true
  · rw [if_pos hany]
    obtain ⟨m1, y, m2, hdec, hm1, hy⟩ :=
      exists_first_split (fun day => day.date = activity.date)
        (removeStage prev activity.id d1) hany
    have hydate : y.date = activity.date := by simpa using hy
    rw [hdec, updateFirst_append_cons _ _ m1 y m2 hm1 hy]
    have hym : y ∈ removeStage prev activity.id d1 := by
      rw [hdec]
      exact List.mem_append_right _ (List.mem_cons_self _ _)
    have hycount : dayCountId activity.id y = 0 := hK1 y hym
    obtain ⟨hcount1, hlen1⟩ := moveUpsert_count activity y hycount
    have hm2date : ∀ z ∈ m2, z.date ≠ activity.date := by
      have hp := date_not_in_parts m1 m2 y (by rw [← hdec]; exact hK3)
      intro z hz he
      exact hp.2 z hz (by rw [he, hydate])
    have hm1' : ∀ z ∈ m1, z.date ≠ activity.date := fun z hz => by
      simpa using hm1 z hz
    have hmemrem : ∀ z, z ∈ m1 ∨ z ∈ m2 →
        z ∈ removeStage prev activity.id d1 := by
      intro z hz
      rw [hdec]
      rcases hz with h1 | h1
      · exact List.mem_append_left _ h1
      · exact List.mem_append_right _ (List.mem_cons_of_mem _ h1)
    refine ⟨?_, ?_, ?_, ?_, ?_⟩
    · intro day hday _
      rcases List.mem_append.mp hday with h1 | h1
      · exact hK1 day (hmemrem day (Or.inl h1))
      · rcases List.mem_cons.mp h1 with rfl | h2
        · rw [show dayCountId activity.id (moveUpsert activity y)
              = 1 from hcount1] at *
          · exact absurd (by assumption : (moveUpsert activity y).date = d1)
              (by rw [moveUpsert_date, hydate]; exact fun he => hne he.symm)
        · exact hK1 day (hmemrem day (Or.inr h2))
    · intro hlen day hday
      rcases List.mem_append.mp hday with h1 | h1
      · exact hK4 hlen day (hmemrem day (Or.inl h1))
      · rcases List.mem_cons.mp h1 with rfl | h2
        · rw [moveUpsert_date, hydate]
          exact fun he => hne he.symm
        · exact hK4 hlen day (hmemrem day (Or.inr h2))
    · exact ⟨moveUpsert activity y,
        List.mem_append_right _ (List.mem_cons_self _ _),
        by rw [moveUpsert_date, hydate]⟩
    · intro day hday hdd
      rcases List.mem_append.mp hday with h1 | h1
      · exact absurd hdd (hm1' day h1)
      · rcases List.mem_cons.mp h1 with rfl | h2
        · exact hcount1
        · exact absurd hdd (hm2date day h2)
    · rw [totalActivities_append, totalActivities_cons, hlen1]
      have h4 : totalActivities (removeStage prev activity.id d1)
          = totalActivities m1 + (y.activities.length + totalActivities m2) := by
        rw [hdec, totalActivities_append, totalActivities_cons]
      omega
  · rw [if_neg hany]
    have hanyf : (removeStage prev activity.id d1).any
        (fun day => day.date = activity.date) = false := by
      simpa using hany
    have hnod2 : ∀ z ∈ removeStage prev activity.id d1,
        z.date ≠ activity.date := by
      intro z hz
      have h3 := List.any_eq_false.mp hanyf z hz
      simpa using h3
    have hmemins : ∀ day ∈ insertNewDay (removeStage prev activity.id d1) activity,
        day ∈ removeStage prev activity.id d1 ∨
          day = (⟨activity.date, [stripOriginalDate activity]⟩ : ItineraryDay) := by
      intro day hday
      rw [insertNewDay, List.mem_mergeSort, List.mem_append] at hday
      rcases hday with h1 | h1
      · exact Or.inl h1
      · exact Or.inr (List.mem_singleton.mp h1)
    refine ⟨?_, ?_, ?_, ?_, ?_⟩
    · intro day hday hdd
      rcases hmemins day hday with h1 | rfl
      · exact hK1 day h1
      · have h5 : activity.date = d1 := hdd
        exact absurd h5 fun he => hne he.symm
    · intro hlen day hday
      rcases hmemins day hday with h1 | rfl
      · exact hK4 hlen day h1
      · show ¬ ((⟨activity.date, [stripOriginalDate activity]⟩ : ItineraryDay).date = d1)
        exact fun he => hne (he.symm)
    · refine ⟨⟨activity.date, [stripOriginalDate activity]⟩, ?_, rfl⟩
      rw [insertNewDay, List.mem_mergeSort]
      exact List.mem_append_right _ (List.mem_cons_self _ _)
    · intro day hday hdd
      rcases hmemins day hday with h1 | rfl
      · exact absurd hdd (hnod2 day h1)
      · show ([stripOriginalDate activity].countP fun a => a.id = activity.id) = 1
        simp [stripOriginalDate, List.countP_cons]
    · have hperm := List.mergeSort_perm (removeStage prev activity.id d1 ++
        [(⟨activity.date, [stripOriginalDate activity]⟩ : ItineraryDay)]) dateLE
      have h6 : totalActivities (insertNewDay (removeStage prev activity.id d1) activity)
          = totalActivities (removeStage prev activity.id d1 ++
              [(⟨activity.date, [stripOriginalDate activity]⟩ : ItineraryDay)]) :=
        totalActivities_perm _ _ hperm
      rw [h6, totalActivities_append, totalActivities_cons]
      have h7 : ((⟨activity.date, [stripOriginalDate activity]⟩ : ItineraryDay)).activities.length = 1 := rfl
      have h8 : totalActivities ([] : List ItineraryDay) = 0 := rfl
      omega

/-- Witness for C1: moving the only activity of day 1 to day 2. -/
theorem C1_activity_move_witness :
    (∀ day ∈ handleActivitySave
        [⟨['1'], [⟨['a'], ['1'], ['0', '9'], [], [], [], none, none⟩]⟩,
         ⟨['2'], [⟨['b'], ['2'], ['1', '2'], [], [], [], none, none⟩]⟩]
        ⟨['a'], ['2'], ['0', '9'], [], [], [], none, none, some ['1']⟩ true,
       day.date = ['1'] → dayCountId ['a'] day = 0) ∧
    ((∀ day ∈ [⟨['1'], [⟨['a'], ['1'], ['0', '9'], [], [], [], none, none⟩]⟩,
         (⟨['2'], [⟨['b'], ['2'], ['1', '2'], [], [], [], none, none⟩]⟩ : ItineraryDay)],
        day.date = ['1'] → day.activities.length = 1) →
      ∀ day ∈ handleActivitySave
        [⟨['1'], [⟨['a'], ['1'], ['0', '9'], [], [], [], none, none⟩]⟩,
         ⟨['2'], [⟨['b'], ['2'], ['1', '2'], [], [], [], none, none⟩]⟩]
        ⟨['a'], ['2'], ['0', '9'], [], [], [], none, none, some ['1']⟩ true,
        day.date ≠ ['1']) ∧
    (∃ day ∈ handleActivitySave
        [⟨['1'], [⟨['a'], ['1'], ['0', '9'], [], [], [], none, none⟩]⟩,
         ⟨['2'], [⟨['b'], ['2'], ['1', '2'], [], [], [], none, none⟩]⟩]
        ⟨['a'], ['2'], ['0', '9'], [], [], [], none, none, some ['1']⟩ true,
       day.date = ['2']) ∧
    (∀ day ∈ handleActivitySave
        [⟨['1'], [⟨['a'], ['1'], ['0', '9'], [], [], [], none, none⟩]⟩,
         ⟨['2'], [⟨['b'], ['2'], ['1', '2'], [], [], [], none, none⟩]⟩]
        ⟨['a'], ['2'], ['0', '9'], [], [], [], none, none, some ['1']⟩ true,
       day.date = ['2'] → dayCountId ['a'] day = 1) ∧
    totalActivities (handleActivitySave
        [⟨['1'], [⟨['a'], ['1'], ['0', '9'], [], [], [], none, none⟩]⟩,
         ⟨['2'], [⟨['b'], ['2'], ['1', '2'], [], [], [], none, none⟩]⟩]
        ⟨['a'], ['2'], ['0', '9'], [], [], [], none, none, some ['1']⟩ true)
      = totalActivities
        [⟨['1'], [⟨['a'], ['1'], ['0', '9'], [], [], [], none, none⟩]⟩,
         ⟨['2'], [⟨['b'], ['2'], ['1', '2'], [], [], [], none, none⟩]⟩] :=
  C1_activity_move
    [⟨['1'], [⟨['a'], ['1'], ['0', '9'], [], [], [], none, none⟩]⟩,
     ⟨['2'], [⟨['b'], ['2'], ['1', '2'], [], [], [], none, none⟩]⟩]
    ⟨['a'], ['2'], ['0', '9'], [], [], [], none, none, some ['1']⟩ ['1']
    rfl (by decide) (by decide) (by decide)
    (by intro day hday
        simp only [dayCountId]
        fin_cases hday <;> decide)
    ⟨_, List.mem_cons_self _ _, rfl⟩

end TravelerApp
